import Mathlib

/-!
Verification development for the `rust-actix` document store.

The core of the repository is the `create_store` handler in `src/main.rs`:
it serializes an arbitrary JSON payload to text, generates a fresh UUID,
inserts one row into the `stores` table through a pooled connection
obtained by `pool.get().unwrap()`, then reloads the whole table and
returns the popped last row as the materialized document.

This file shallowly embeds that path:
* a `Json` value type together with a compact serializer (`jsonToString`,
  modelling `serde_json::Value::to_string`) and a decoder (`jsonDecode`,
  modelling the canonical JSON decoder on the compact encoding);
* a state model of the `stores` table, the r2d2 connection pool, and the
  injected failure environment;
* the `create_store` translation and theorems about it.
-/

namespace RustActix

mutual
/-- Modelled from the spec: the JSON value type of the external
`serde_json` crate (the store treats payloads as opaque JSON values).
Arrays and objects are given as mutually inductive cons-lists so that all
recursion over values is structural.  Numbers are modelled as integers;
floating point payloads are outside the model. -/
inductive Json where
  | null : Json
  | bool (b : Bool) : Json
  | num (n : Int) : Json
  | str (s : String) : Json
  | arr (elems : JsonArr) : Json
  | obj (fields : JsonObj) : Json
deriving DecidableEq

/-- A cons-list of JSON array elements. -/
inductive JsonArr where
  | nil : JsonArr
  | cons (hd : Json) (tl : JsonArr) : JsonArr
deriving DecidableEq

/-- A cons-list of JSON object fields (key/value pairs). -/
inductive JsonObj where
  | nil : JsonObj
  | cons (key : String) (val : Json) (tl : JsonObj) : JsonObj
deriving DecidableEq
end

/-- The decimal digit character for `n < 10`. -/
def digitChar (n : Nat) : Char :=
  if n = 0 then '0' else if n = 1 then '1' else if n = 2 then '2'
  else if n = 3 then '3' else if n = 4 then '4' else if n = 5 then '5'
  else if n = 6 then '6' else if n = 7 then '7' else if n = 8 then '8'
  else '9'

/-- The numeric value of a decimal digit character, if it is one. -/
def charToDigit (c : Char) : Option Nat :=
  if c = '0' then some 0 else if c = '1' then some 1 else if c = '2' then some 2
  else if c = '3' then some 3 else if c = '4' then some 4 else if c = '5' then some 5
  else if c = '6' then some 6 else if c = '7' then some 7 else if c = '8' then some 8
  else if c = '9' then some 9 else none

/-- Whether `c` is a decimal digit character. -/
def isDigitChar (c : Char) : Bool :=
  (charToDigit c).isSome

/-- Fuelled digit renderer; with fuel above `n` it renders the decimal
digits of `n`, most significant first. -/
def natToDigitsAux : Nat → Nat → List Char
  | 0, _ => []
  | fuel + 1, n =>
    if n < 10 then [digitChar n]
    else natToDigitsAux fuel (n / 10) ++ [digitChar (n % 10)]

/-- The decimal digits of `n`, most significant first. -/
def natToDigits (n : Nat) : List Char :=
  natToDigitsAux (n + 1) n

/-- Fold a digit string back to the number it denotes. -/
def digitsVal (ds : List Char) : Nat :=
  ds.foldl (fun a c => a * 10 + (charToDigit c).getD 0) 0

/-- Compact rendering of an integer, as `serde_json` renders numbers. -/
def encInt (n : Int) : List Char :=
  if n < 0 then '-' :: natToDigits n.natAbs else natToDigits n.toNat

/-- String-character escaping of the serializer: quote, backslash and the
common control characters are escaped; other characters pass through. -/
def escapeChar (c : Char) : List Char :=
  if c = '\"' then ['\\', '\"']
  else if c = '\\' then ['\\', '\\']
  else if c = '\n' then ['\\', 'n']
  else if c = '\t' then ['\\', 't']
  else if c = '\r' then ['\\', 'r']
  else [c]

/-- Inverse of `escapeChar` on the escaped character. -/
def unescapeChar (e : Char) : Option Char :=
  if e = '\"' then some '\"'
  else if e = '\\' then some '\\'
  else if e = 'n' then some '\n'
  else if e = 't' then some '\t'
  else if e = 'r' then some '\r'
  else none

/-- The characters of the `null` keyword. -/
def nullChars : List Char := ['n', 'u', 'l', 'l']

/-- The characters of the `true` keyword. -/
def trueChars : List Char := ['t', 'r', 'u', 'e']

/-- The characters of the `false` keyword. -/
def falseChars : List Char := ['f', 'a', 'l', 's', 'e']

/-- Serialized body of a string literal: the escaped characters followed
by the closing quote. -/
def encStrBody : List Char → List Char
  | [] => ['\"']
  | c :: cs => escapeChar c ++ encStrBody cs

mutual
/-- Modelled from the spec: the compact serialization of a JSON value, as
`serde_json::Value::to_string` produces it (no whitespace). -/
def encJson : Json → List Char
  | .num n => encInt n
  | .null => nullChars
  | .bool true => trueChars
  | .bool false => falseChars
  | .str s => '\"' :: encStrBody s.data
  | .arr .nil => ['[', ']']
  | .arr (.cons v vs) => '[' :: (encJson v ++ encArrTail vs)
  | .obj .nil => ['\x7b', '\x7d']
  | .obj (.cons k v kvs) =>
    '\x7b' :: '\"' :: (encStrBody k.data ++ ':' :: encJson v ++ encObjTail kvs)
  termination_by structural v => v

/-- Serialization of the remaining array elements, ending at `]`. -/
def encArrTail : JsonArr → List Char
  | .nil => [']']
  | .cons v vs => ',' :: (encJson v ++ encArrTail vs)
  termination_by structural vs => vs

/-- Serialization of the remaining object fields, ending at the brace. -/
def encObjTail : JsonObj → List Char
  | .nil => ['\x7d']
  | .cons k v kvs => ',' :: '\"' :: (encStrBody k.data ++ ':' :: encJson v ++ encObjTail kvs)
  termination_by structural kvs => kvs
end

/-- Serialization of one object field, `"key":value`. -/
def encField (k : String) (v : Json) : List Char :=
  '\"' :: (encStrBody k.data ++ ':' :: encJson v)

/-- `serde_json::Value::to_string`, the serialization step of
`create_store` (`request_data.to_string()` in `src/main.rs`). -/
def jsonToString (v : Json) : String :=
  String.mk (encJson v)

mutual
/-- Parse the body of a string literal, up to the closing quote. -/
def parseStringBody : List Char → Option (List Char × List Char)
  | [] => none
  | c :: input =>
    if c = '\"' then some ([], input)
    else if c = '\\' then parseStringEsc input
    else
      match parseStringBody input with
      | some (s, rest) => some (c :: s, rest)
      | none => none
  termination_by structural l => l

/-- Parse the remainder of a string literal after a backslash. -/
def parseStringEsc : List Char → Option (List Char × List Char)
  | [] => none
  | e :: input =>
    match unescapeChar e with
    | none => none
    | some c =>
      match parseStringBody input with
      | some (s, rest) => some (c :: s, rest)
      | none => none
  termination_by structural l => l
end

/-- Parse a leading run of decimal digits as a natural number. -/
def parseNum (input : List Char) : Option (Nat × List Char) :=
  let ds := input.takeWhile isDigitChar
  if ds.isEmpty then none
  else some (digitsVal ds, input.dropWhile isDigitChar)

mutual
/-- Modelled from the spec: the canonical JSON decoder on the compact
encoding, with explicit recursion fuel. -/
def parseVal : Nat → List Char → Option (Json × List Char)
  | 0, _ => none
  | _ + 1, [] => none
  | fuel + 1, c :: input =>
    if c = 'n' then
      match input with
      | 'u' :: 'l' :: 'l' :: rest => some (.null, rest)
      | _ => none
    else if c = 't' then
      match input with
      | 'r' :: 'u' :: 'e' :: rest => some (.bool true, rest)
      | _ => none
    else if c = 'f' then
      match input with
      | 'a' :: 'l' :: 's' :: 'e' :: rest => some (.bool false, rest)
      | _ => none
    else if c = '\"' then
      match parseStringBody input with
      | some (s, rest) => some (.str (String.mk s), rest)
      | none => none
    else if c = '[' then
      if input.head? = some ']' then some (.arr .nil, input.tail)
      else
        match parseVal fuel input with
        | some (v, rest) =>
          match parseElems fuel rest with
          | some (vs, rest') => some (.arr (.cons v vs), rest')
          | none => none
        | none => none
    else if c = '\x7b' then
      if input.head? = some '\x7d' then some (.obj .nil, input.tail)
      else
        match parseField fuel input with
        | some (k, v, rest) =>
          match parseFields fuel rest with
          | some (kvs, rest') => some (.obj (.cons k v kvs), rest')
          | none => none
        | none => none
    else if c = '-' then
      match parseNum input with
      | some (m, rest) => some (.num (-(m : Int)), rest)
      | none => none
    else if isDigitChar c then
      match parseNum (c :: input) with
      | some (m, rest) => some (.num (m : Int), rest)
      | none => none
    else none

/-- Parse the array elements after the first one, through the closing
bracket. -/
def parseElems : Nat → List Char → Option (JsonArr × List Char)
  | 0, _ => none
  | _ + 1, [] => none
  | fuel + 1, c :: input =>
    if c = ']' then some (.nil, input)
    else if c = ',' then
      match parseVal fuel input with
      | some (v, rest) =>
        match parseElems fuel rest with
        | some (vs, rest') => some (.cons v vs, rest')
        | none => none
      | none => none
    else none

/-- Parse one object field, `"key":value`. -/
def parseField : Nat → List Char → Option (String × Json × List Char)
  | 0, _ => none
  | _ + 1, [] => none
  | fuel + 1, c :: input =>
    if c = '\"' then
      match parseStringBody input with
      | some (k, rest) =>
        match rest with
        | ':' :: rest' =>
          match parseVal fuel rest' with
          | some (v, rest'') => some (String.mk k, v, rest'')
          | none => none
        | _ => none
      | none => none
    else none

/-- Parse the object fields after the first one, through the closing
brace. -/
def parseFields : Nat → List Char → Option (JsonObj × List Char)
  | 0, _ => none
  | _ + 1, [] => none
  | fuel + 1, c :: input =>
    if c = '\x7d' then some (.nil, input)
    else if c = ',' then
      match parseField fuel input with
      | some (k, v, rest) =>
        match parseFields fuel rest with
        | some (kvs, rest') => some (.cons k v kvs, rest')
        | none => none
      | none => none
    else none
end

/-- Modelled from the spec: the canonical JSON decoder
(`serde_json::from_str` on the compact encoding); it must consume the
whole input. -/
def jsonDecode (s : String) : Option Json :=
  match parseVal s.data.length s.data with
  | some (v, []) => some v
  | _ => none

/-- A list of characters that may legally follow a serialized value:
empty, or starting with a separator or closing delimiter. -/
def delim (rest : List Char) : Prop :=
  rest = [] ∨ ∃ c t, rest = c :: t ∧ (c = ',' ∨ c = ']' ∨ c = '\x7d')

lemma isDigitChar_iff (c : Char) :
    isDigitChar c = true ↔
      (c = '0' ∨ c = '1' ∨ c = '2' ∨ c = '3' ∨ c = '4' ∨ c = '5' ∨
       c = '6' ∨ c = '7' ∨ c = '8' ∨ c = '9') := by
  unfold isDigitChar charToDigit
  split_ifs <;> simp_all

lemma digit_ne (c : Char) (h : isDigitChar c = true) :
    c ≠ 'n' ∧ c ≠ 't' ∧ c ≠ 'f' ∧ c ≠ '\"' ∧ c ≠ '[' ∧ c ≠ '\x7b' ∧
    c ≠ '-' ∧ c ≠ ']' ∧ c ≠ '\x7d' ∧ c ≠ ',' ∧ c ≠ ':' ∧ c ≠ '\\' := by
  rcases (isDigitChar_iff c).mp h with h|h|h|h|h|h|h|h|h|h <;> subst h <;> decide

lemma charToDigit_digitChar (n : Nat) (h : n < 10) :
    charToDigit (digitChar n) = some n := by
  interval_cases n <;> decide

lemma isDigitChar_digitChar (n : Nat) (h : n < 10) :
    isDigitChar (digitChar n) = true := by
  unfold isDigitChar
  rw [charToDigit_digitChar n h]
  rfl

lemma natToDigitsAux_irrel (n : Nat) : ∀ f₁ f₂, n < f₁ → n < f₂ →
    natToDigitsAux f₁ n = natToDigitsAux f₂ n := by
  induction n using Nat.strong_induction_on with
  | _ n ih =>
    intro f₁ f₂ h₁ h₂
    obtain ⟨a, rfl⟩ : ∃ a, f₁ = a + 1 := ⟨f₁ - 1, by omega⟩
    obtain ⟨b, rfl⟩ : ∃ b, f₂ = b + 1 := ⟨f₂ - 1, by omega⟩
    simp only [natToDigitsAux]
    by_cases h : n < 10
    · simp [h]
    · have hd : n / 10 < n := Nat.div_lt_self (by omega) (by omega)
      rw [if_neg h, if_neg h, ih (n / 10) hd a b (by omega) (by omega)]

lemma natToDigits_step (n : Nat) :
    natToDigits n = if n < 10 then [digitChar n]
      else natToDigits (n / 10) ++ [digitChar (n % 10)] := by
  have hstep : natToDigitsAux (n + 1) n =
      if n < 10 then [digitChar n]
      else natToDigitsAux n (n / 10) ++ [digitChar (n % 10)] := rfl
  unfold natToDigits
  rw [hstep]
  by_cases h : n < 10
  · simp [h]
  · have hd : n / 10 < n := Nat.div_lt_self (by omega) (by omega)
    rw [if_neg h, if_neg h,
      natToDigitsAux_irrel (n / 10) n (n / 10 + 1) (by omega) (by omega)]

lemma natToDigits_all_digit (n : Nat) :
    ∀ c ∈ natToDigits n, isDigitChar c = true := by
  induction n using Nat.strong_induction_on with
  | _ n ih =>
    rw [natToDigits_step]
    by_cases h : n < 10
    · simp only [if_pos h]
      intro c hc
      rcases List.mem_singleton.mp hc with rfl
      exact isDigitChar_digitChar n h
    · have hd : n / 10 < n := Nat.div_lt_self (by omega) (by omega)
      simp only [if_neg h]
      intro c hc
      rcases List.mem_append.mp hc with hc | hc
      · exact ih (n / 10) hd c hc
      · rcases List.mem_singleton.mp hc with rfl
        exact isDigitChar_digitChar _ (Nat.mod_lt _ (by omega))

lemma natToDigits_ne_nil (n : Nat) : natToDigits n ≠ [] := by
  rw [natToDigits_step]
  by_cases h : n < 10 <;> simp [h]

lemma digitsVal_natToDigits (n : Nat) : digitsVal (natToDigits n) = n := by
  induction n using Nat.strong_induction_on with
  | _ n ih =>
    rw [natToDigits_step]
    by_cases h : n < 10
    · simp [if_pos h, digitsVal, charToDigit_digitChar n h]
    · have hd : n / 10 < n := Nat.div_lt_self (by omega) (by omega)
      simp only [if_neg h]
      unfold digitsVal
      rw [List.foldl_append]
      have hpre := ih (n / 10) hd
      unfold digitsVal at hpre
      rw [hpre]
      simp [charToDigit_digitChar (n % 10) (Nat.mod_lt _ (by omega))]
      omega

lemma takeWhile_append_all {p : Char → Bool} :
    ∀ l r : List Char, (∀ c ∈ l, p c = true) →
      (l ++ r).takeWhile p = l ++ r.takeWhile p := by
  intro l
  induction l with
  | nil => simp
  | cons c cs ih =>
    intro r h
    simp only [List.cons_append, List.takeWhile_cons]
    rw [h c (by simp)]
    simp [ih r (fun x hx => h x (by simp [hx]))]

lemma dropWhile_append_all {p : Char → Bool} :
    ∀ l r : List Char, (∀ c ∈ l, p c = true) →
      (l ++ r).dropWhile p = r.dropWhile p := by
  intro l
  induction l with
  | nil => simp
  | cons c cs ih =>
    intro r h
    simp only [List.cons_append, List.dropWhile_cons]
    rw [h c (by simp)]
    simp [ih r (fun x hx => h x (by simp [hx]))]

lemma takeWhile_nil_head {p : Char → Bool} (r : List Char)
    (h : ∀ c t, r = c :: t → p c = false) : r.takeWhile p = [] := by
  cases r with
  | nil => rfl
  | cons c t => simp [List.takeWhile_cons, h c t rfl]

lemma dropWhile_self_head {p : Char → Bool} (r : List Char)
    (h : ∀ c t, r = c :: t → p c = false) : r.dropWhile p = r := by
  cases r with
  | nil => rfl
  | cons c t => simp [List.dropWhile_cons, h c t rfl]

lemma delim_head_not_digit (rest : List Char) (h : delim rest) :
    ∀ c t, rest = c :: t → isDigitChar c = false := by
  intro c t hct
  rcases h with h | ⟨c', t', hc, hd⟩
  · simp [h] at hct
  · rw [hct] at hc
    obtain ⟨rfl, rfl⟩ : c' = c ∧ t' = t := by
      constructor <;> simp [List.cons.injEq] at hc <;> tauto
    rcases hd with rfl | rfl | rfl <;> decide

lemma parseNum_natToDigits (n : Nat) (rest : List Char) (h : delim rest) :
    parseNum (natToDigits n ++ rest) = some (n, rest) := by
  have hall := natToDigits_all_digit n
  have hhead := delim_head_not_digit rest h
  unfold parseNum
  rw [takeWhile_append_all _ _ hall, takeWhile_nil_head rest hhead,
    dropWhile_append_all _ _ hall, dropWhile_self_head rest hhead,
    List.append_nil]
  have hne := natToDigits_ne_nil n
  rw [if_neg (by simpa [List.isEmpty_iff] using hne)]
  rw [digitsVal_natToDigits]

lemma parseStringBody_enc :
    ∀ (l : List Char) (rest : List Char),
      parseStringBody (encStrBody l ++ rest) = some (l, rest) := by
  intro l
  induction l with
  | nil =>
    intro rest
    simp [encStrBody, parseStringBody]
  | cons c cs ih =>
    intro rest
    simp only [encStrBody, List.append_assoc]
    by_cases h1 : c = '\"'
    · subst h1
      simp [escapeChar, parseStringBody, parseStringEsc, unescapeChar, ih rest]
    · by_cases h2 : c = '\\'
      · subst h2
        simp [escapeChar, parseStringBody, parseStringEsc, unescapeChar, ih rest]
      · by_cases h3 : c = '\n'
        · subst h3
          simp [escapeChar, parseStringBody, parseStringEsc, unescapeChar, ih rest]
        · by_cases h4 : c = '\t'
          · subst h4
            simp [escapeChar, parseStringBody, parseStringEsc, unescapeChar, ih rest]
          · by_cases h5 : c = '\r'
            · subst h5
              simp [escapeChar, parseStringBody, parseStringEsc, unescapeChar, ih rest]
            · simp [escapeChar, h1, h2, h3, h4, h5, parseStringBody, ih rest]

mutual
/-- Recursion fuel sufficient for `parseVal` to parse the serialization
of `v`. -/
def fuelJson : Json → Nat
  | .null => 1
  | .bool _ => 1
  | .num _ => 1
  | .str _ => 1
  | .arr .nil => 1
  | .arr (.cons v vs) => 1 + fuelJson v + fuelArr vs
  | .obj .nil => 1
  | .obj (.cons _ v kvs) => 2 + fuelJson v + fuelObj kvs
  termination_by structural v => v

/-- Fuel sufficient for `parseElems` on the serialized tail. -/
def fuelArr : JsonArr → Nat
  | .nil => 1
  | .cons v vs => 1 + fuelJson v + fuelArr vs
  termination_by structural vs => vs

/-- Fuel sufficient for `parseFields` on the serialized tail. -/
def fuelObj : JsonObj → Nat
  | .nil => 1
  | .cons _ v kvs => 2 + fuelJson v + fuelObj kvs
  termination_by structural kvs => kvs
end

lemma one_le_fuelJson (v : Json) : 1 ≤ fuelJson v := by
  cases v with
  | null => simp [fuelJson]
  | bool b => simp [fuelJson]
  | num n => simp [fuelJson]
  | str s => simp [fuelJson]
  | arr vs => cases vs <;> simp [fuelJson] <;> omega
  | obj kvs => cases kvs <;> simp [fuelJson] <;> omega

lemma one_le_fuelArr (vs : JsonArr) : 1 ≤ fuelArr vs := by
  cases vs <;> simp [fuelArr] <;> omega

lemma one_le_fuelObj (kvs : JsonObj) : 1 ≤ fuelObj kvs := by
  cases kvs <;> simp [fuelObj] <;> omega

lemma encJson_head (v : Json) :
    ∃ c t, encJson v = c :: t ∧
      (c = 'n' ∨ c = 't' ∨ c = 'f' ∨ c = '\"' ∨ c = '[' ∨ c = '\x7b' ∨
       c = '-' ∨ isDigitChar c = true) := by
  cases v with
  | null => exact ⟨'n', _, rfl, by tauto⟩
  | bool b =>
    cases b
    · exact ⟨'f', _, rfl, by tauto⟩
    · exact ⟨'t', _, rfl, by tauto⟩
  | num n =>
    show ∃ c t, encInt n = c :: t ∧ _
    unfold encInt
    by_cases h : n < 0
    · rw [if_pos h]
      exact ⟨'-', _, rfl, by tauto⟩
    · rw [if_neg h]
      obtain ⟨c, t, hct⟩ := List.exists_cons_of_ne_nil (natToDigits_ne_nil n.toNat)
      refine ⟨c, t, hct, ?_⟩
      have : isDigitChar c = true :=
        natToDigits_all_digit n.toNat c (by rw [hct]; exact List.mem_cons_self _ _)
      tauto
  | str s => exact ⟨'\"', _, rfl, by tauto⟩
  | arr vs =>
    cases vs
    · exact ⟨'[', _, rfl, by tauto⟩
    · exact ⟨'[', _, rfl, by tauto⟩
  | obj kvs =>
    cases kvs
    · exact ⟨'\x7b', _, rfl, by tauto⟩
    · exact ⟨'\x7b', _, rfl, by tauto⟩

lemma encJson_ne_nil (v : Json) : encJson v ≠ [] := by
  obtain ⟨c, t, hct, _⟩ := encJson_head v
  simp [hct]

lemma encJson_head_ne_rbracket (v : Json) :
    ¬ (encJson v).head? = some ']' := by
  obtain ⟨c, t, hct, hd⟩ := encJson_head v
  rw [hct]
  simp only [List.head?_cons, Option.some.injEq]
  intro hc
  subst hc
  rcases hd with h|h|h|h|h|h|h|h
  · exact absurd h (by decide)
  · exact absurd h (by decide)
  · exact absurd h (by decide)
  · exact absurd h (by decide)
  · exact absurd h (by decide)
  · exact absurd h (by decide)
  · exact absurd h (by decide)
  · exact absurd rfl (digit_ne _ h).2.2.2.2.2.2.2.1

lemma delim_encArrTail (vs : JsonArr) (rest : List Char) :
    delim (encArrTail vs ++ rest) := by
  cases vs with
  | nil => exact Or.inr ⟨']', rest, rfl, by tauto⟩
  | cons v vs => exact Or.inr ⟨',', _, rfl, by tauto⟩

lemma delim_encObjTail (kvs : JsonObj) (rest : List Char) :
    delim (encObjTail kvs ++ rest) := by
  cases kvs with
  | nil => exact Or.inr ⟨'\x7d', rest, rfl, by tauto⟩
  | cons k v kvs => exact Or.inr ⟨',', _, rfl, by tauto⟩

lemma string_mk_data (s : String) : String.mk s.data = s := rfl

theorem parse_enc (fuel : Nat) :
    (∀ v rest, fuelJson v ≤ fuel → delim rest →
      parseVal fuel (encJson v ++ rest) = some (v, rest)) ∧
    (∀ vs rest, fuelArr vs ≤ fuel → delim rest →
      parseElems fuel (encArrTail vs ++ rest) = some (vs, rest)) ∧
    (∀ kvs rest, fuelObj kvs ≤ fuel → delim rest →
      parseFields fuel (encObjTail kvs ++ rest) = some (kvs, rest)) ∧
    (∀ k v rest, fuelJson v + 1 ≤ fuel → delim rest →
      parseField fuel (encField k v ++ rest) = some (k, v, rest)) := by
  induction fuel with
  | zero =>
    refine ⟨?_, ?_, ?_, ?_⟩
    · intro v rest hf _
      exact absurd hf (by have := one_le_fuelJson v; omega)
    · intro vs rest hf _
      exact absurd hf (by have := one_le_fuelArr vs; omega)
    · intro kvs rest hf _
      exact absurd hf (by have := one_le_fuelObj kvs; omega)
    · intro k v rest hf _
      exact absurd hf (by omega)
  | succ fuel ih =>
    obtain ⟨ihV, ihE, ihO, ihF⟩ := ih
    refine ⟨?_, ?_, ?_, ?_⟩
    · intro v rest hf hrest
      cases v with
      | null => simp [encJson, nullChars, parseVal]
      | bool b => cases b <;> simp [encJson, trueChars, falseChars, parseVal]
      | num n =>
        show parseVal (fuel + 1) (encInt n ++ rest) = _
        unfold encInt
        by_cases hn : n < 0
        · rw [if_pos hn]
          obtain ⟨m, rfl⟩ : ∃ m : Nat, n = -(m : Int) := ⟨n.natAbs, by omega⟩
          have hm : (-(m : Int)).natAbs = m := by omega
          rw [hm]
          have hp := parseNum_natToDigits m rest hrest
          simp only [List.cons_append]
          simp [parseVal, hp]
        · rw [if_neg hn]
          obtain ⟨m, rfl⟩ : ∃ m : Nat, n = (m : Int) := ⟨n.toNat, by omega⟩
          have hm : ((m : Int)).toNat = m := by omega
          rw [hm]
          obtain ⟨c, t, hct⟩ := List.exists_cons_of_ne_nil (natToDigits_ne_nil m)
          have hdig : isDigitChar c = true :=
            natToDigits_all_digit m c (by rw [hct]; exact List.mem_cons_self _ _)
          have hne := digit_ne c hdig
          have hp := parseNum_natToDigits m rest hrest
          rw [hct] at hp ⊢
          simp only [List.cons_append] at hp ⊢
          simp [parseVal, hne.1, hne.2.1, hne.2.2.1, hne.2.2.2.1, hne.2.2.2.2.1,
            hne.2.2.2.2.2.1, hne.2.2.2.2.2.2.1, hdig, hp]
      | str s =>
        simp [encJson, parseVal, parseStringBody_enc s.data rest, string_mk_data]
      | arr vs =>
        cases vs with
        | nil => simp [encJson, parseVal]
        | cons v vs =>
          have hfv : fuelJson v ≤ fuel := by
            have := one_le_fuelArr vs; simp [fuelJson] at hf; omega
          have hfvs : fuelArr vs ≤ fuel := by
            have := one_le_fuelJson v; simp [fuelJson] at hf; omega
          have h1 := ihV v (encArrTail vs ++ rest) hfv (delim_encArrTail vs rest)
          have h2 := ihE vs rest hfvs hrest
          simp only [encJson, List.cons_append, List.append_assoc]
          simp [parseVal, encJson_head_ne_rbracket v, encJson_ne_nil v, h1, h2]
      | obj kvs =>
        cases kvs with
        | nil => simp [encJson, parseVal]
        | cons k v kvs =>
          have hfv : fuelJson v + 1 ≤ fuel := by
            have := one_le_fuelObj kvs; simp [fuelJson] at hf; omega
          have hfkvs : fuelObj kvs ≤ fuel := by
            have := one_le_fuelJson v; simp [fuelJson] at hf; omega
          have h1 := ihF k v (encObjTail kvs ++ rest) hfv (delim_encObjTail kvs rest)
          have h2 := ihO kvs rest hfkvs hrest
          simp only [encField, List.cons_append, List.append_assoc] at h1
          simp only [encJson, List.cons_append, List.append_assoc]
          simp [parseVal, h1, h2]
    · intro vs rest hf hrest
      cases vs with
      | nil => simp [encArrTail, parseElems]
      | cons v vs =>
        have hfv : fuelJson v ≤ fuel := by
          have := one_le_fuelArr vs; simp [fuelArr] at hf; omega
        have hfvs : fuelArr vs ≤ fuel := by
          have := one_le_fuelJson v; simp [fuelArr] at hf; omega
        have h1 := ihV v (encArrTail vs ++ rest) hfv (delim_encArrTail vs rest)
        have h2 := ihE vs rest hfvs hrest
        simp only [encArrTail, List.cons_append, List.append_assoc]
        simp [parseElems, h1, h2]
    · intro kvs rest hf hrest
      cases kvs with
      | nil => simp [encObjTail, parseFields]
      | cons k v kvs =>
        have hfv : fuelJson v + 1 ≤ fuel := by
          have := one_le_fuelObj kvs; simp [fuelObj] at hf; omega
        have hfkvs : fuelObj kvs ≤ fuel := by
          have := one_le_fuelJson v; simp [fuelObj] at hf; omega
        have h1 := ihF k v (encObjTail kvs ++ rest) hfv (delim_encObjTail kvs rest)
        have h2 := ihO kvs rest hfkvs hrest
        simp only [encField, List.cons_append, List.append_assoc] at h1
        simp only [encObjTail, List.cons_append, List.append_assoc]
        simp [parseFields, h1, h2]
    · intro k v rest hf hrest
      have hfv : fuelJson v ≤ fuel := by omega
      have h1 := ihV v rest hfv hrest
      have hs := parseStringBody_enc k.data (':' :: (encJson v ++ rest))
      simp only [encField, List.cons_append, List.append_assoc]
      simp [parseField, hs, h1, string_mk_data]

lemma encInt_ne_nil (n : Int) : encInt n ≠ [] := by
  unfold encInt
  by_cases h : n < 0
  · simp [h]
  · simp [h, natToDigits_ne_nil]

lemma fuel_le_enc_len (N : Nat) :
    (∀ v, fuelJson v ≤ N → fuelJson v ≤ (encJson v).length) ∧
    (∀ vs, fuelArr vs ≤ N → fuelArr vs ≤ (encArrTail vs).length) ∧
    (∀ kvs, fuelObj kvs ≤ N → fuelObj kvs ≤ (encObjTail kvs).length) := by
  induction N with
  | zero =>
    refine ⟨?_, ?_, ?_⟩
    · intro v h
      exact absurd h (by have := one_le_fuelJson v; omega)
    · intro vs h
      exact absurd h (by have := one_le_fuelArr vs; omega)
    · intro kvs h
      exact absurd h (by have := one_le_fuelObj kvs; omega)
  | succ N ih =>
    obtain ⟨ihV, ihE, ihO⟩ := ih
    refine ⟨?_, ?_, ?_⟩
    · intro v h
      cases v with
      | null => simp [fuelJson, encJson, nullChars]
      | bool b => cases b <;> simp [fuelJson, encJson, trueChars, falseChars]
      | num n =>
        have := List.length_pos.mpr (encInt_ne_nil n)
        show fuelJson (.num n) ≤ (encInt n).length
        simp only [fuelJson]
        omega
      | str s => simp [fuelJson, encJson]
      | arr vs =>
        cases vs with
        | nil => simp [fuelJson, encJson]
        | cons v vs =>
          have h1 := one_le_fuelJson v
          have h2 := one_le_fuelArr vs
          simp only [fuelJson] at h ⊢
          have hv := ihV v (by omega)
          have hvs := ihE vs (by omega)
          simp only [encJson, List.length_cons, List.length_append]
          omega
      | obj kvs =>
        cases kvs with
        | nil => simp [fuelJson, encJson]
        | cons k v kvs =>
          have h1 := one_le_fuelJson v
          have h2 := one_le_fuelObj kvs
          simp only [fuelJson] at h ⊢
          have hv := ihV v (by omega)
          have hkvs := ihO kvs (by omega)
          simp only [encJson, List.length_cons, List.length_append]
          omega
    · intro vs h
      cases vs with
      | nil => simp [fuelArr, encArrTail]
      | cons v vs =>
        have h1 := one_le_fuelJson v
        have h2 := one_le_fuelArr vs
        simp only [fuelArr] at h ⊢
        have hv := ihV v (by omega)
        have hvs := ihE vs (by omega)
        simp only [encArrTail, List.length_cons, List.length_append]
        omega
    · intro kvs h
      cases kvs with
      | nil => simp [fuelObj, encObjTail]
      | cons k v kvs =>
        have h1 := one_le_fuelJson v
        have h2 := one_le_fuelObj kvs
        simp only [fuelObj] at h ⊢
        have hv := ihV v (by omega)
        have hkvs := ihO kvs (by omega)
        simp only [encObjTail, List.length_cons, List.length_append]
        omega

/-- Round-trip fidelity of the serializer and the canonical decoder: the
compact serialization of every JSON value decodes back to a structurally
equal value. -/
theorem jsonDecode_jsonToString (v : Json) : jsonDecode (jsonToString v) = some v := by
  have hfl : fuelJson v ≤ (encJson v).length :=
    (fuel_le_enc_len (fuelJson v)).1 v (le_refl _)
  have h := (parse_enc (encJson v).length).1 v [] hfl (Or.inl rfl)
  rw [List.append_nil] at h
  simp [jsonDecode, jsonToString, h]

/-- Modelled from the spec: a persisted row of the `stores` table.  The
`Store` model struct and the `stores` schema live in `src/model.rs` and
`src/schema.rs`, which are not among the sources; the field names follow
the spec's data model: `internal_id` is the store-assigned serial
primary key, `external_id` the generated public identifier (`api_id` in
the code), `payload` the serialized JSON text (`data` in the code). -/
structure StoreRow where
  internal_id : Nat
  external_id : String
  payload : String
deriving DecidableEq

/-- The insertable values built by `create_store` (`NewStore` in the
code): the serialized payload text and the generated UUID. -/
structure NewStore where
  data : String
  api_id : String
deriving DecidableEq

/-- The state of the backing `stores` table: the rows in insertion
order, plus the next value of the store-assigned serial primary key. -/
structure DbState where
  rows : List StoreRow
  next_internal_id : Nat
deriving DecidableEq

/-- The single-row insert
(`diesel::insert_into(stores).values(&new_entry).execute(conn)`): a
fresh row is appended and the store assigns the serial primary key. -/
def dbInsert (db : DbState) (e : NewStore) : DbState :=
  { rows := db.rows ++ [⟨db.next_internal_id, e.api_id, e.data⟩],
    next_internal_id := db.next_internal_id + 1 }

/-- The unfiltered full-table load
(`stores.load::<model::Store>(conn)`): every row of the table, in
insertion order. -/
def dbLoad (db : DbState) : List StoreRow :=
  db.rows

/-- Rows committed by concurrent requests, applied to the shared table
between this request's insert and its load. -/
def dbInterleave (db : DbState) (others : List NewStore) : DbState :=
  others.foldl dbInsert db

/-- Failure of connection acquisition (r2d2 `pool.get()`): the wait
timed out with no connection free, or the pool was torn down. -/
inductive PoolError where
  | exhausted : PoolError
  | closed : PoolError
deriving DecidableEq

/-- The r2d2 connection pool, abstracted to its count of available
connections. -/
structure Pool where
  available : Nat
deriving DecidableEq

/-- `pool.get()`: leases a connection when one is free (and no failure
is injected); a scoped lease that `poolRelease` returns. -/
def poolGet (p : Pool) (fail : Option PoolError) : Except PoolError Pool :=
  match fail with
  | some e => .error e
  | none =>
    if p.available = 0 then .error .exhausted
    else .ok { available := p.available - 1 }

/-- Scope end of the r2d2 lease (its `Drop`, run on every exit path
including unwinding): the connection returns to the pool. -/
def poolRelease (p : Pool) : Pool :=
  { available := p.available + 1 }

/-- Injected environment of one `create_store` request: the outcome of
pool acquisition, whether the insert commits, whether the load
succeeds, and the rows committed by concurrent requests between this
request's insert and its load. -/
structure DbEnv where
  pool_fail : Option PoolError
  insert_ok : Bool
  load_ok : Bool
  interleaved : List NewStore
deriving DecidableEq

/-- The observable outcome of the handler: the 200 response carrying
the materialized document, the 500 response, or a panic (a failed
`unwrap`). -/
inductive HttpResponse where
  | ok (doc : StoreRow) : HttpResponse
  | internalServerError : HttpResponse
  | panicked : HttpResponse
deriving DecidableEq

/-- The `create_store` handler of `src/main.rs`: serializes the
payload, builds the new entry from the generated UUID (`uuid` stands
for the result of the random `Uuid::new_v4()` call), leases a
connection with `pool.get().unwrap()` (a panic if acquisition fails),
executes the single-row insert, reloads the whole table and returns
the popped last row (`result.pop().unwrap()`); a failed insert or load
falls through to `InternalServerError`.  The result carries the
response together with the final table and pool states. -/
def create_store (request_data : Json) (uuid : String) (env : DbEnv)
    (pool : Pool) (db : DbState) : HttpResponse × DbState × Pool :=
  let serialized := jsonToString request_data
  let new_entry : NewStore := { data := serialized, api_id := uuid }
  match poolGet pool env.pool_fail with
  | .error _ => (.panicked, db, pool)
  | .ok leased =>
    if env.insert_ok then
      let db₁ := dbInsert db new_entry
      let db₂ := dbInterleave db₁ env.interleaved
      if env.load_ok then
        match (dbLoad db₂).getLast? with
        | some row => (.ok row, db₂, poolRelease leased)
        | none => (.panicked, db₂, poolRelease leased)
      else (.internalServerError, db₂, poolRelease leased)
    else (.internalServerError, db, poolRelease leased)

/-- One request of a sequence: its payload, its generated UUID and its
injected environment. -/
structure Op where
  payload : Json
  uuid : String
  env : DbEnv

/-- Run a sequence of `create_store` requests, each on the state left
behind by the previous one. -/
def runInserts : List Op → DbState → Pool → DbState × Pool
  | [], db, pool => (db, pool)
  | op :: rest, db, pool =>
    let r := create_store op.payload op.uuid op.env pool db
    runInserts rest r.2.1 r.2.2

lemma poolRelease_leased (a : Nat) (ha : a ≠ 0) :
    poolRelease ⟨a - 1⟩ = (⟨a⟩ : Pool) := by
  simp [poolRelease]
  omega

lemma create_store_success (P : Json) (uuid : String) (env : DbEnv)
    (pool : Pool) (db : DbState)
    (hpf : env.pool_fail = none) (hav : pool.available ≠ 0)
    (hins : env.insert_ok = true) (hld : env.load_ok = true) :
    create_store P uuid env pool db =
      ((match (dbLoad (dbInterleave (dbInsert db ⟨jsonToString P, uuid⟩)
          env.interleaved)).getLast? with
        | some row => HttpResponse.ok row
        | none => HttpResponse.panicked),
       dbInterleave (dbInsert db ⟨jsonToString P, uuid⟩) env.interleaved,
       pool) := by
  cases pool with
  | mk a =>
    simp only [Pool.mk.injEq] at hav
    simp only [create_store, poolGet, hpf, hins, hld, if_neg hav, if_true]
    rw [poolRelease_leased a hav]
    cases hl : (dbLoad (dbInterleave (dbInsert db ⟨jsonToString P, uuid⟩)
        env.interleaved)).getLast? <;> simp [hl]

lemma create_store_success_nointer (P : Json) (uuid : String) (env : DbEnv)
    (pool : Pool) (db : DbState)
    (hpf : env.pool_fail = none) (hav : pool.available ≠ 0)
    (hins : env.insert_ok = true) (hld : env.load_ok = true)
    (hint : env.interleaved = []) :
    create_store P uuid env pool db =
      (.ok ⟨db.next_internal_id, uuid, jsonToString P⟩,
       dbInsert db ⟨jsonToString P, uuid⟩, pool) := by
  rw [create_store_success P uuid env pool db hpf hav hins hld, hint]
  simp [dbInterleave, dbLoad, dbInsert]

lemma create_store_state_cases (P : Json) (uuid : String) (env : DbEnv)
    (pool : Pool) (db : DbState) (hint : env.interleaved = []) :
    (create_store P uuid env pool db).2.1 = db ∨
    (create_store P uuid env pool db).2.1 = dbInsert db ⟨jsonToString P, uuid⟩ := by
  cases hpf : env.pool_fail with
  | some e => left; simp [create_store, poolGet, hpf]
  | none =>
    by_cases hav : pool.available = 0
    · left
      simp [create_store, poolGet, hpf, hav]
    · cases hins : env.insert_ok
      · left
        simp [create_store, poolGet, hpf, if_neg hav, hins]
      · right
        simp only [create_store, poolGet, hpf, if_neg hav, hins, if_true, hint]
        simp only [dbInterleave, List.foldl_nil]
        cases hld : env.load_ok
        · simp
        · cases hl : (dbLoad (dbInsert db ⟨jsonToString P, uuid⟩)).getLast? <;> simp [hl]

lemma dbInterleave_rows_extend (others : List NewStore) :
    ∀ db : DbState, ∃ t, (dbInterleave db others).rows = db.rows ++ t := by
  induction others with
  | nil =>
    intro db
    exact ⟨[], by simp [dbInterleave]⟩
  | cons e es ih =>
    intro db
    obtain ⟨t, ht⟩ := ih (dbInsert db e)
    refine ⟨⟨db.next_internal_id, e.api_id, e.data⟩ :: t, ?_⟩
    simp only [dbInterleave, List.foldl_cons] at ht ⊢
    rw [ht]
    simp [dbInsert]

/-- The sample request payload `{"a":1}` used by the concrete
witnesses. -/
def samplePayload : Json := .obj (.cons "a" (.num 1) .nil)

/-- An environment with no injected failure and no concurrent writer. -/
def cleanEnv : DbEnv :=
  { pool_fail := none, insert_ok := true, load_ok := true, interleaved := [] }

/-- An environment whose pool acquisition times out exhausted. -/
def exhaustedEnv : DbEnv :=
  { pool_fail := some .exhausted, insert_ok := true, load_ok := true, interleaved := [] }

/-- An environment whose insert fails to commit. -/
def writeFailEnv : DbEnv :=
  { pool_fail := none, insert_ok := false, load_ok := true, interleaved := [] }

/-- An environment whose read-back load fails. -/
def loadFailEnv : DbEnv :=
  { pool_fail := none, insert_ok := true, load_ok := false, interleaved := [] }

/-- An environment in which one concurrent insert (payload `2`,
identifier "id-2") commits between this request's insert and its
read-back load. -/
def c1Env : DbEnv :=
  { pool_fail := none, insert_ok := true, load_ok := true,
    interleaved := [{ data := jsonToString (.num 2), api_id := "id-2" }] }

/-- An environment in which one concurrent insert (payload `true`,
identifier "w2") commits between this request's insert and its
read-back load. -/
def divergeEnv : DbEnv :=
  { pool_fail := none, insert_ok := true, load_ok := true,
    interleaved := [{ data := jsonToString (.bool true), api_id := "w2" }] }

/-- C1 (failing input): with payload `{"a":1}`, generated identifier
"id-1", an initially empty table, and one concurrent insert committed
between the write and the read-back, `create_store` succeeds but
returns the concurrent row: its `external_id` is "id-2", not the
generated "id-1", and its stored payload decodes to `2`, not to
`{"a":1}`.  The read-back selects the most recent row of an unfiltered
load instead of re-reading by the generated `external_id`, so the
returned `Document` is not the one created by this insert. -/
theorem C1_readback_not_by_external_id :
    (create_store samplePayload "id-1" c1Env ⟨1⟩ ⟨[], 0⟩).1 =
      .ok ⟨1, "id-2", jsonToString (.num 2)⟩ ∧
    ("id-2" : String) ≠ "id-1" ∧
    jsonDecode (jsonToString (.num 2)) = some (.num 2) ∧
    Json.num 2 ≠ samplePayload := by
  refine ⟨rfl, by decide, rfl, by decide⟩

/-- C2: round-trip fidelity: for every JSON payload `P`, a successful
`insert(P)` (pool acquisition succeeds, the insert commits, the load
succeeds, no concurrent writer) returns a `Document` whose stored
payload text decodes through the canonical JSON decoder to a value
structurally equal to `P`. -/
theorem C2_roundtrip_fidelity (P : Json) (uuid : String) (env : DbEnv)
    (pool : Pool) (db : DbState)
    (hpf : env.pool_fail = none) (hav : pool.available ≠ 0)
    (hins : env.insert_ok = true) (hld : env.load_ok = true)
    (hint : env.interleaved = []) :
    ∃ doc : StoreRow, (create_store P uuid env pool db).1 = .ok doc ∧
      jsonDecode doc.payload = some P := by
  refine ⟨⟨db.next_internal_id, uuid, jsonToString P⟩, ?_, jsonDecode_jsonToString P⟩
  rw [create_store_success_nointer P uuid env pool db hpf hav hins hld hint]

/-- C2 witness at the concrete payload `{"a":1}`. -/
theorem C2_roundtrip_fidelity_witness :
    cleanEnv.pool_fail = none ∧ (Pool.mk 1).available ≠ 0 ∧
    cleanEnv.insert_ok = true ∧ cleanEnv.load_ok = true ∧
    cleanEnv.interleaved = [] ∧
    ∃ doc : StoreRow,
      (create_store samplePayload "3f2b0a" cleanEnv ⟨1⟩ ⟨[], 0⟩).1 = .ok doc ∧
      jsonDecode doc.payload = some samplePayload :=
  ⟨rfl, by decide, rfl, rfl, rfl,
    C2_roundtrip_fidelity samplePayload "3f2b0a" cleanEnv ⟨1⟩ ⟨[], 0⟩
      rfl (by decide) rfl rfl rfl⟩

/-- C3 (counterexample): when `pool.get()` fails (here: exhausted), the
handler panics on the `unwrap` instead of returning an error value to
the caller, and the same happens when the pool has no free connection. -/
theorem C3_counterexample_pool_failure_panics :
    (create_store samplePayload "u0" exhaustedEnv ⟨1⟩ ⟨[], 0⟩).1 = .panicked ∧
    (create_store samplePayload "u0" cleanEnv ⟨0⟩ ⟨[], 0⟩).1 = .panicked ∧
    HttpResponse.panicked ≠ .internalServerError := by
  refine ⟨rfl, rfl, by decide⟩

/-- C3 (amended): failure of the write or of the read-back load is
surfaced to the caller, but only as the undifferentiated
`InternalServerError` response; failure of pool acquisition (e.g. the
timeout elapsing with no connection free) makes the handler panic via
`unwrap` instead of returning a `PoolExhausted` error value. -/
theorem C3_amended_failure_surfacing (P : Json) (uuid : String) (env : DbEnv)
    (pool : Pool) (db : DbState) :
    (∀ e, poolGet pool env.pool_fail = .error e →
      (create_store P uuid env pool db).1 = .panicked) ∧
    (env.pool_fail = none → pool.available ≠ 0 → env.insert_ok = false →
      (create_store P uuid env pool db).1 = .internalServerError) ∧
    (env.pool_fail = none → pool.available ≠ 0 → env.insert_ok = true →
      env.load_ok = false →
      (create_store P uuid env pool db).1 = .internalServerError) := by
  refine ⟨?_, ?_, ?_⟩
  · intro e he
    simp [create_store, he]
  · intro hpf hav hins
    cases pool with
    | mk a =>
      have hav0 : ¬ a = 0 := by simpa using hav
      simp [create_store, poolGet, hpf, hav0, hins]
  · intro hpf hav hins hld
    cases pool with
    | mk a =>
      have hav0 : ¬ a = 0 := by simpa using hav
      simp [create_store, poolGet, hpf, hav0, hins, hld]

/-- C3 witness: the three failure paths at concrete inputs. -/
theorem C3_amended_failure_surfacing_witness :
    (create_store samplePayload "u1" exhaustedEnv ⟨1⟩ ⟨[], 0⟩).1 = .panicked ∧
    (create_store samplePayload "u1" writeFailEnv ⟨1⟩ ⟨[], 0⟩).1 = .internalServerError ∧
    (create_store samplePayload "u1" loadFailEnv ⟨1⟩ ⟨[], 0⟩).1 = .internalServerError :=
  ⟨(C3_amended_failure_surfacing samplePayload "u1" exhaustedEnv ⟨1⟩ ⟨[], 0⟩).1
      .exhausted rfl,
   (C3_amended_failure_surfacing samplePayload "u1" writeFailEnv ⟨1⟩ ⟨[], 0⟩).2.1
      rfl (by decide) rfl,
   (C3_amended_failure_surfacing samplePayload "u1" loadFailEnv ⟨1⟩ ⟨[], 0⟩).2.2
      rfl (by decide) rfl rfl⟩

/-- C4 (counterexample): a write failure and a read-back (load) failure
produce the identical response value `InternalServerError`: the two
failure kinds are not distinguishable in the result returned to the
caller. -/
theorem C4_counterexample_failures_indistinct :
    (create_store samplePayload "u2" loadFailEnv ⟨1⟩ ⟨[], 0⟩).1 =
      (create_store samplePayload "u2" writeFailEnv ⟨1⟩ ⟨[], 0⟩).1 ∧
    (create_store samplePayload "u2" loadFailEnv ⟨1⟩ ⟨[], 0⟩).1 =
      .internalServerError := by
  refine ⟨rfl, rfl⟩

/-- C4 (amended): when the insert commits but the read-back load fails,
the operation returns `InternalServerError` — the very same response a
write failure produces, not a distinct `ReadBackError`. -/
theorem C4_amended_readback_error_not_distinct
    (P1 P2 : Json) (u1 u2 : String) (env1 env2 : DbEnv)
    (pool1 pool2 : Pool) (db1 db2 : DbState)
    (h1pf : env1.pool_fail = none) (h1av : pool1.available ≠ 0)
    (h1in : env1.insert_ok = false)
    (h2pf : env2.pool_fail = none) (h2av : pool2.available ≠ 0)
    (h2in : env2.insert_ok = true) (h2ld : env2.load_ok = false) :
    (create_store P2 u2 env2 pool2 db2).1 = .internalServerError ∧
    (create_store P2 u2 env2 pool2 db2).1 = (create_store P1 u1 env1 pool1 db1).1 := by
  have hw : (create_store P1 u1 env1 pool1 db1).1 = .internalServerError := by
    cases pool1 with
    | mk a =>
      have hav0 : ¬ a = 0 := by simpa using h1av
      simp [create_store, poolGet, h1pf, hav0, h1in]
  have hr : (create_store P2 u2 env2 pool2 db2).1 = .internalServerError := by
    cases pool2 with
    | mk a =>
      have hav0 : ¬ a = 0 := by simpa using h2av
      simp [create_store, poolGet, h2pf, hav0, h2in, h2ld]
  exact ⟨hr, by rw [hw, hr]⟩

/-- C4 witness at concrete inputs. -/
theorem C4_amended_readback_error_not_distinct_witness :
    (create_store (.num 7) "u3" loadFailEnv ⟨2⟩ ⟨[], 3⟩).1 = .internalServerError ∧
    (create_store (.num 7) "u3" loadFailEnv ⟨2⟩ ⟨[], 3⟩).1 =
      (create_store (.num 5) "u4" writeFailEnv ⟨1⟩ ⟨[], 0⟩).1 :=
  C4_amended_readback_error_not_distinct (.num 5) (.num 7) "u4" "u3"
    writeFailEnv loadFailEnv ⟨1⟩ ⟨2⟩ ⟨[], 0⟩ ⟨[], 3⟩
    rfl (by decide) rfl rfl (by decide) rfl rfl

/-- C5: no connection leak on any exit path: after any `create_store`
call — success, write failure, load failure, pool-acquisition failure,
or a panic on an `unwrap` — the pool state (its available count) equals
the pool state before the call. -/
theorem C5_no_connection_leak (P : Json) (uuid : String) (env : DbEnv)
    (pool : Pool) (db : DbState) :
    (create_store P uuid env pool db).2.2 = pool := by
  cases pool with
  | mk a =>
    cases hpf : env.pool_fail with
    | some e => simp [create_store, poolGet, hpf]
    | none =>
      by_cases hav : a = 0
      · simp [create_store, poolGet, hpf, hav]
      · cases hins : env.insert_ok
        · simp [create_store, poolGet, hpf, hav, hins, poolRelease_leased a hav]
        · cases hld : env.load_ok
          · simp [create_store, poolGet, hpf, hav, hins, hld, poolRelease_leased a hav]
          · cases hl : (dbLoad (dbInterleave
                (dbInsert db ⟨jsonToString P, uuid⟩) env.interleaved)).getLast? <;>
              simp [create_store, poolGet, hpf, hav, hins, hld, hl,
                poolRelease_leased a hav]

/-- C6: idempotence is absent: two successive successful inserts of the
identical payload with distinct generated identifiers create two
distinct fresh rows — distinct `external_id`s and distinct
`internal_id`s — appended after the pre-existing rows; no existing row
is merged or updated. -/
theorem C6_no_idempotence (P : Json) (u1 u2 : String) (env1 env2 : DbEnv)
    (pool : Pool) (db : DbState)
    (hne : u1 ≠ u2)
    (h1pf : env1.pool_fail = none) (hav : pool.available ≠ 0)
    (h1in : env1.insert_ok = true) (h1ld : env1.load_ok = true)
    (h1it : env1.interleaved = [])
    (h2pf : env2.pool_fail = none)
    (h2in : env2.insert_ok = true) (h2ld : env2.load_ok = true)
    (h2it : env2.interleaved = []) :
    ∃ d1 d2 : StoreRow,
      (create_store P u1 env1 pool db).1 = .ok d1 ∧
      (create_store P u2 env2 (create_store P u1 env1 pool db).2.2
        (create_store P u1 env1 pool db).2.1).1 = .ok d2 ∧
      d1.external_id ≠ d2.external_id ∧
      d1.internal_id ≠ d2.internal_id ∧
      (create_store P u2 env2 (create_store P u1 env1 pool db).2.2
        (create_store P u1 env1 pool db).2.1).2.1.rows = db.rows ++ [d1, d2] := by
  have h1 := create_store_success_nointer P u1 env1 pool db h1pf hav h1in h1ld h1it
  rw [h1]
  have h2 := create_store_success_nointer P u2 env2 pool
    (dbInsert db ⟨jsonToString P, u1⟩) h2pf hav h2in h2ld h2it
  rw [h2]
  refine ⟨_, _, rfl, rfl, ?_, ?_, ?_⟩
  · simpa using hne
  · simp [dbInsert]
  · simp [dbInsert]

/-- C6 witness: the two inserts at concrete inputs. -/
theorem C6_no_idempotence_witness :
    ("a1" : String) ≠ "a2" ∧
    ∃ d1 d2 : StoreRow,
      (create_store samplePayload "a1" cleanEnv ⟨1⟩ ⟨[], 0⟩).1 = .ok d1 ∧
      (create_store samplePayload "a2" cleanEnv
        (create_store samplePayload "a1" cleanEnv ⟨1⟩ ⟨[], 0⟩).2.2
        (create_store samplePayload "a1" cleanEnv ⟨1⟩ ⟨[], 0⟩).2.1).1 = .ok d2 ∧
      d1.external_id ≠ d2.external_id ∧
      d1.internal_id ≠ d2.internal_id ∧
      (create_store samplePayload "a2" cleanEnv
        (create_store samplePayload "a1" cleanEnv ⟨1⟩ ⟨[], 0⟩).2.2
        (create_store samplePayload "a1" cleanEnv ⟨1⟩ ⟨[], 0⟩).2.1).2.1.rows =
        (⟨[], 0⟩ : DbState).rows ++ [d1, d2] :=
  ⟨by decide,
    C6_no_idempotence samplePayload "a1" "a2" cleanEnv cleanEnv ⟨1⟩ ⟨[], 0⟩
      (by decide) rfl (by decide) rfl rfl rfl rfl rfl rfl rfl⟩

/-- C7: uniqueness invariant: across every sequence of inserts whose
generated identifiers are fresh and pairwise distinct (and with no
concurrent writers), no two rows of the final table share an
`external_id`; moreover all rows present before the sequence are still
present, unchanged and in order, as a prefix of the final table — no
operation of this core mutates a written row. -/
theorem C7_external_id_uniqueness :
    ∀ (ops : List Op) (db : DbState) (pool : Pool),
      ((db.rows.map StoreRow.external_id) ++ ops.map Op.uuid).Nodup →
      (∀ op ∈ ops, op.env.interleaved = []) →
      ((runInserts ops db pool).1.rows.map StoreRow.external_id).Nodup ∧
      ∃ t, (runInserts ops db pool).1.rows = db.rows ++ t := by
  intro ops
  induction ops with
  | nil =>
    intro db pool hnd _
    refine ⟨by simpa using hnd, ⟨[], by simp [runInserts]⟩⟩
  | cons op rest ih =>
    intro db pool hnd hint
    have hopint : op.env.interleaved = [] := hint op (by simp)
    have hrest : ∀ o ∈ rest, o.env.interleaved = [] :=
      fun o ho => hint o (by simp [ho])
    simp only [runInserts]
    rcases create_store_state_cases op.payload op.uuid op.env pool db hopint
      with hc | hc
    · rw [hc]
      have hnd' : ((db.rows.map StoreRow.external_id) ++ rest.map Op.uuid).Nodup := by
        have hsub : List.Sublist
            (db.rows.map StoreRow.external_id ++ rest.map Op.uuid)
            (db.rows.map StoreRow.external_id ++ (op :: rest).map Op.uuid) := by
          simp only [List.map_cons]
          exact List.Sublist.append_left (List.sublist_cons_self _ _) _
        exact hnd.sublist hsub
      exact ih db _ hnd' hrest
    · rw [hc]
      have hnd' : (((dbInsert db ⟨jsonToString op.payload, op.uuid⟩).rows.map
          StoreRow.external_id) ++ rest.map Op.uuid).Nodup := by
        simp only [dbInsert, List.map_append, List.map_cons, List.map_nil,
          List.append_assoc, List.cons_append, List.nil_append]
        simpa using hnd
      obtain ⟨hndf, t, ht⟩ := ih (dbInsert db ⟨jsonToString op.payload, op.uuid⟩) _ hnd' hrest
      refine ⟨hndf, ⟨⟨db.next_internal_id, op.uuid, jsonToString op.payload⟩ :: t, ?_⟩⟩
      rw [ht]
      simp [dbInsert]

/-- C7 witness: a concrete two-insert sequence. -/
theorem C7_external_id_uniqueness_witness :
    ((((⟨[], 0⟩ : DbState)).rows.map StoreRow.external_id) ++
      ([⟨.null, "q1", cleanEnv⟩, ⟨.null, "q2", cleanEnv⟩] : List Op).map Op.uuid).Nodup ∧
    (((runInserts [⟨.null, "q1", cleanEnv⟩, ⟨.null, "q2", cleanEnv⟩]
        ⟨[], 0⟩ ⟨1⟩).1.rows.map StoreRow.external_id).Nodup ∧
      ∃ t, (runInserts [⟨.null, "q1", cleanEnv⟩, ⟨.null, "q2", cleanEnv⟩]
        ⟨[], 0⟩ ⟨1⟩).1.rows = (⟨[], 0⟩ : DbState).rows ++ t) :=
  ⟨by decide,
    C7_external_id_uniqueness [⟨.null, "q1", cleanEnv⟩, ⟨.null, "q2", cleanEnv⟩]
      ⟨[], 0⟩ ⟨1⟩ (by decide) (by decide)⟩

/-- C8: write atomicity: if pool acquisition succeeds but the insert
fails to commit, the handler returns `InternalServerError`, the table
state is unchanged, the pool is unchanged, and no row carrying the
generated identifier exists afterwards (for a fresh identifier); no
partial document is visible or returned. -/
theorem C8_write_atomicity (P : Json) (uuid : String) (env : DbEnv)
    (pool : Pool) (db : DbState)
    (hpf : env.pool_fail = none) (hav : pool.available ≠ 0)
    (hins : env.insert_ok = false)
    (hfresh : uuid ∉ db.rows.map StoreRow.external_id) :
    create_store P uuid env pool db = (.internalServerError, db, pool) ∧
    uuid ∉ (create_store P uuid env pool db).2.1.rows.map StoreRow.external_id := by
  have hmain : create_store P uuid env pool db = (.internalServerError, db, pool) := by
    cases pool with
    | mk a =>
      have hav0 : ¬ a = 0 := by simpa using hav
      simp [create_store, poolGet, hpf, hav0, hins, poolRelease_leased a hav0]
  exact ⟨hmain, by rw [hmain]; exact hfresh⟩

/-- C8 witness at concrete inputs. -/
theorem C8_write_atomicity_witness :
    create_store samplePayload "w0" writeFailEnv ⟨1⟩ ⟨[], 0⟩ =
      (.internalServerError, ⟨[], 0⟩, ⟨1⟩) ∧
    "w0" ∉ (create_store samplePayload "w0" writeFailEnv
      ⟨1⟩ ⟨[], 0⟩).2.1.rows.map StoreRow.external_id :=
  C8_write_atomicity samplePayload "w0" writeFailEnv ⟨1⟩ ⟨[], 0⟩
    rfl (by decide) rfl (by decide)

/-- C9: whenever pool acquisition, the insert and the read-back load
all succeed, the loaded row list is non-empty (it contains at least the
row this insert appended), so the `pop()` after the read-back always
yields a row and its `unwrap` cannot panic: the handler returns a 200
response. -/
theorem C9_readback_pop_never_fails (P : Json) (uuid : String) (env : DbEnv)
    (pool : Pool) (db : DbState)
    (hpf : env.pool_fail = none) (hav : pool.available ≠ 0)
    (hins : env.insert_ok = true) (hld : env.load_ok = true) :
    ∃ doc, (create_store P uuid env pool db).1 = .ok doc := by
  rw [create_store_success P uuid env pool db hpf hav hins hld]
  obtain ⟨t, ht⟩ := dbInterleave_rows_extend env.interleaved
    (dbInsert db ⟨jsonToString P, uuid⟩)
  have hne : dbLoad (dbInterleave (dbInsert db ⟨jsonToString P, uuid⟩)
      env.interleaved) ≠ [] := by
    rw [dbLoad, ht]
    simp [dbInsert]
  cases hl : (dbLoad (dbInterleave (dbInsert db ⟨jsonToString P, uuid⟩)
      env.interleaved)).getLast? with
  | none => exact absurd (List.getLast?_eq_none_iff.mp hl) hne
  | some row => exact ⟨row, by simp [hl]⟩

/-- C9 witness at concrete inputs (with a concurrent writer, to show the
pop is safe regardless). -/
theorem C9_readback_pop_never_fails_witness :
    ∃ doc, (create_store samplePayload "p1" divergeEnv ⟨1⟩ ⟨[], 0⟩).1 = .ok doc :=
  C9_readback_pop_never_fails samplePayload "p1" divergeEnv ⟨1⟩ ⟨[], 0⟩
    rfl (by decide) rfl rfl

/-- C10: the read-back step loads every row of the `stores` table — an
unfiltered full-table load — and returns the last element; it never
filters by the generated `external_id`, and consequently there are
store states (rows inserted by concurrent operations between the write
and the load) for which the returned `Document` differs from the row
this insert wrote. -/
theorem C10_readback_is_unfiltered_last :
    (∀ (P : Json) (uuid : String) (env : DbEnv) (pool : Pool) (db : DbState),
      env.pool_fail = none → pool.available ≠ 0 →
      env.insert_ok = true → env.load_ok = true →
      (create_store P uuid env pool db).1 =
        (match (dbLoad (dbInterleave (dbInsert db ⟨jsonToString P, uuid⟩)
            env.interleaved)).getLast? with
         | some row => HttpResponse.ok row
         | none => HttpResponse.panicked)) ∧
    (∃ (P : Json) (uuid : String) (env : DbEnv) (pool : Pool) (db : DbState)
        (doc : StoreRow),
      (create_store P uuid env pool db).1 = .ok doc ∧
      doc.external_id ≠ uuid) := by
  constructor
  · intro P uuid env pool db hpf hav hins hld
    rw [create_store_success P uuid env pool db hpf hav hins hld]
  · exact ⟨.null, "w1", divergeEnv, ⟨1⟩, ⟨[], 0⟩,
      ⟨1, "w2", jsonToString (.bool true)⟩, rfl, by decide⟩

/-- C10 witness: the characterization instantiated at a concrete input
with one concurrent insert. -/
theorem C10_readback_is_unfiltered_last_witness :
    (create_store .null "w1" divergeEnv ⟨1⟩ ⟨[], 0⟩).1 =
      (match (dbLoad (dbInterleave (dbInsert ⟨[], 0⟩ ⟨jsonToString .null, "w1"⟩)
          divergeEnv.interleaved)).getLast? with
       | some row => HttpResponse.ok row
       | none => HttpResponse.panicked) :=
  C10_readback_is_unfiltered_last.1 .null "w1" divergeEnv ⟨1⟩ ⟨[], 0⟩
    rfl (by decide) rfl rfl

end RustActix
